import Mathlib

/-!
Shallow embedding of the relevance-filtering and bounded-concurrency assembly
pipeline of the matstack code-rules server.

The embedded code:
* `src/src/tool/filter-service.ts` — `FilterService.filterRelevantFiles`,
  `FilterService.filterRelevantContent`, `FilterService.createCacheKey`;
* the `FormatterService.formatOutput` assembler and the bounded-concurrency
  request pipeline `CodeRulesHandler.processRequest`
  (`src/src/tools/code-rules/service.ts`, `pLimit(4)` + `Promise.all`).

External effects are made explicit: the LLM oracle becomes a parameter
(deterministic in its arguments per the temperature-zero contract), the
process-wide `Map` cache becomes an explicit association list threaded through
calls, and each function additionally reports how many oracle invocations it
performed.
-/

set_option maxRecDepth 4096

/-- Structure `DocMetadata` from `src/src/tool/schema.ts`: filename, path, optional
title and tags from frontmatter, and the optional relevance score stamped by
the file filter.  The score is modelled as a rational (the source only ever
stores the literal `1.0`, resp. `0.8` in the legacy placeholder). -/
structure DocMetadata where
  filename : String
  path : String
  title : Option String := none
  tags : Option (List String) := none
  relevanceScore : Option ℚ := none
deriving Repr, DecidableEq

/-- Structure `RelevantContent` from `src/src/tool/schema.ts`: filename plus the
content that survived content filtering. -/
structure RelevantContent where
  file : String
  content : String
deriving Repr, DecidableEq

/-- One entry of the JSON verdict array the oracle returns for the batched
file-relevance judgment.  The JSON field `include` (a Lean keyword) is named
`includeFlag`; `none` models an absent field, so the source's
`include !== false` test becomes `includeFlag != some false`. -/
structure Verdict where
  fileIndex : Int
  includeFlag : Option Bool := none
  reasoning : String := ""
deriving Repr, DecidableEq

/-- The spread `{ ...file, relevanceScore: 1.0 }` used on every kept file in
`filterRelevantFiles`: all fields preserved, score overwritten with `1.0`. -/
def stampScore (file : DocMetadata) : DocMetadata :=
  { file with relevanceScore := some 1 }

/-- Combined outcome of the single batched oracle call in
`filterRelevantFiles` together with the JSON extraction and parse of its
response text: `Except.error` covers both a thrown `generateText` call and a
response in which no well-formed verdict array can be found (the
`text.match` miss and the `JSON.parse` throw), `Except.ok` carries the parsed
verdict array. -/
abbrev JudgeOutcome := Except Unit (List Verdict)

/-- The keep test inside the `files.filter` callback of
`filterRelevantFiles`: look up the first verdict whose `fileIndex` equals the
file's 1-based index (`filterData.find`), keep on no match
(`!fileData`) or on `include !== false`. -/
def keepsFile (filterData : List Verdict) (index : Nat) : Bool :=
  match filterData.find? (fun item => item.fileIndex == (index : Int) + 1) with
  | none => true
  | some fileData => fileData.includeFlag != some false

/-- Function `FilterService.filterRelevantFiles`
(src/src/tool/filter-service.ts, lines 21–95).  Returns the filtered list together with the number of oracle
invocations performed.  Branches, in source order: empty input, the `≤ 3`
short-circuit (all files stamped, no call), then the single batched oracle
call whose outcome is the `judge` parameter — on failure the original array
is returned unchanged, on success `files.filter(...).map(stamp)`. -/
def filterRelevantFiles (files : List DocMetadata) (task : String)
    (judge : JudgeOutcome) : List DocMetadata × Nat :=
  if files.length = 0 then ([], 0)
  else if files.length ≤ 3 then (files.map stampScore, 0)
  else
    match judge with
    | Except.error _ => (files, 1)
    | Except.ok filterData =>
        ((files.enum.filter (fun p => keepsFile filterData p.1)).map
          (fun p => stampScore p.2), 1)

/-- The process-lifetime `taskCache : Map<string, string>` of `FilterService`,
as an association list: `Map.get` is first-match lookup and `Map.set` is
prepend (the fresh entry shadows any older one, matching overwrite). -/
abbrev FilterCache := List (String × String)

/-- JavaScript `| 0`: wrap an integer to the signed 32-bit range. -/
def toInt32 (x : Int) : Int := (x + 2 ^ 31) % 2 ^ 32 - 2 ^ 31

/-- The `simpleHash` closure inside `FilterService.createCacheKey`: the
rolling hash `hash = ((hash << 5) - hash) + str.charCodeAt(i); hash |= 0`
over the string's characters, with the 32-bit signed wrap-around of `<< 5`
and `|= 0` made explicit. -/
def simpleHash (str : String) : Int :=
  str.data.foldl
    (fun hash c => toInt32 (toInt32 (hash * 32) - hash + (c.toNat : Int))) 0

/-- Function `FilterService.createCacheKey`: the template string
`contentHash + ":" + taskHash`. -/
def createCacheKey (content task : String) : String :=
  toString (simpleHash content) ++ ":" ++ toString (simpleHash task)

/-- Outcome of one `generateText` call inside `filterRelevantContent`,
as a function of `(content, task)` — deterministic per the oracle's
documented temperature-zero contract; `Except.error` models a thrown call. -/
abbrev ContentOracle := String → String → Except Unit String

/-- JavaScript `String.prototype.trim`: strip leading and trailing
whitespace.  Defined structurally over the character list so that it
evaluates on concrete strings (Lean's own `String.trim` recurses on byte
positions by well-founded recursion and does not reduce). -/
def jsTrim (s : String) : String :=
  String.mk
    (((s.data.dropWhile Char.isWhitespace).reverse.dropWhile
      Char.isWhitespace).reverse)

/-- Function `FilterService.filterRelevantContent`
(src/src/tool/filter-service.ts, lines 106–167).  Returns the filtered text, the updated cache and the number
of oracle invocations.  Branches, in source order: empty / whitespace-only
content (`!content || content.trim() === ''`), cache hit, the `length < 500`
short-circuit, then the oracle call — on success the response is cached and
returned, on error the original content is returned with no cache write. -/
def filterRelevantContent (oracle : ContentOracle) (cache : FilterCache)
    (content task : String) : String × FilterCache × Nat :=
  if content = "" ∨ jsTrim content = "" then ("", cache, 0)
  else
    let cacheKey := createCacheKey content task
    match cache.lookup cacheKey with
    | some cached => (cached, cache, 0)
    | none =>
      if content.length < 500 then (content, cache, 0)
      else
        match oracle content task with
        | Except.ok text => (text, (cacheKey, text) :: cache, 1)
        | Except.error _ => (content, cache, 1)

/-- Function `FormatterService.formatOutput` (the Assembler): the fixed placeholder on
an empty list, otherwise one `## file\n\ncontent\n\n` section per item joined
with `'---\n\n'` (JavaScript `Array.join` is `String.intercalate`). -/
def formatOutput (contents : List RelevantContent) : String :=
  if contents.length = 0 then
    "No relevant documentation found for this task."
  else
    String.intercalate "---\n\n"
      (contents.map (fun item =>
        "## " ++ item.file ++ "\n\n" ++ item.content ++ "\n\n"))

/-- The per-file unit of work the scheduler runs inside `limit(async () => …)`
in `CodeRulesHandler.processRequest`: read the file's content
(`fileService.getFileContent(file.path)`, here the function `readF` from path
to text), content-filter it, and pair the result with the filename.  With a
deterministic oracle the filtered text is a function `filterC` of the raw
content alone; cache effects cannot change the value returned for a fixed
`(content, task)` pair. -/
def processFile (readF filterC : String → String) (file : DocMetadata) :
    RelevantContent :=
  { file := file.filename, content := filterC (readF file.path) }

/-- State of the bounded-concurrency scheduler (`pLimit(4)` feeding
`Promise.all` in `CodeRulesHandler.processRequest`), modelled from the spec's
worker-pool contract: `pending` holds the indices of units not yet started,
in queue order; `running` the indices currently in flight; `results` the
settled `(index, value)` pairs, collected in completion order. -/
structure SchedState (β : Type) where
  pending : List Nat
  running : List Nat
  results : List (Nat × β)

/-- Initial scheduler state for `n` queued units: all indices pending, in
input order, nothing running, nothing settled. -/
def initState (β : Type) (n : Nat) : SchedState β :=
  ⟨List.range n, [], []⟩

/-- One scheduler transition.  `start` dispatches the head of the queue when
fewer than `K` units are in flight; `complete` settles any in-flight unit
`i`, recording its deterministic value `op i` — completion order is
unconstrained, which is exactly the freedom the event loop has. -/
inductive SchedStep (K : Nat) {β : Type} (op : Nat → β) :
    SchedState β → SchedState β → Prop
  | start {i : Nat} {rest run : List Nat} {res : List (Nat × β)}
      (hK : run.length < K) :
      SchedStep K op ⟨i :: rest, run, res⟩ ⟨rest, i :: run, res⟩
  | complete {pend : List Nat} {run₁ run₂ : List Nat}
      {res : List (Nat × β)} {i : Nat} :
      SchedStep K op ⟨pend, run₁ ++ i :: run₂, res⟩
        ⟨pend, run₁ ++ run₂, (i, op i) :: res⟩

/-- The states one run of the scheduler on `n` units can pass through:
reflexive-transitive closure of `SchedStep` from the initial state. -/
def Reachable (K : Nat) {β : Type} (op : Nat → β) (n : Nat)
    (s : SchedState β) : Prop :=
  Relation.ReflTransGen (SchedStep K op) (initState β n) s

/-- A run is finished when no unit is pending or in flight; `Promise.all`
then resolves with, at position `i`, the settled value of unit `i`. -/
def Terminal (s : SchedState β) : Prop :=
  s.pending = [] ∧ s.running = []

/-- Erase the one field the file filter may rewrite, for comparing a returned
file with the input file it came from. -/
def eraseScore (file : DocMetadata) : DocMetadata :=
  { file with relevanceScore := none }

/-- Modelled from the claim's words (C4): a file at 0-based position `index`
is excluded exactly when the verdict list contains an entry with
`fileIndex = index + 1` whose include field is exactly `false`. -/
def claimExcludes (filterData : List Verdict) (index : Nat) : Bool :=
  filterData.any (fun item =>
    item.fileIndex == (index : Int) + 1 && item.includeFlag == some false)

/-- The verdict-path output the claim's exclusion rule prescribes: keep the
files not excluded, in order, each stamped. -/
def claimPrescribedResult (files : List DocMetadata)
    (filterData : List Verdict) : List DocMetadata :=
  (files.enum.filter (fun p => !(claimExcludes filterData p.1))).map
    (fun p => stampScore p.2)

/-- The amended exclusion rule: scan the verdict list in order for the first
entry carrying the file's 1-based index; keep the file when there is no such
entry or when that first entry's include field is not exactly `false`. -/
def firstMatchKeeps (filterData : List Verdict) (index : Nat) : Bool :=
  match filterData with
  | [] => true
  | item :: rest =>
      if item.fileIndex = (index : Int) + 1 then item.includeFlag != some false
      else firstMatchKeeps rest index

/-- The verdict-path output the amended rule prescribes. -/
def amendedPrescribedResult (files : List DocMetadata)
    (filterData : List Verdict) : List DocMetadata :=
  (files.enum.filter (fun p => firstMatchKeeps filterData p.1)).map
    (fun p => stampScore p.2)

/-- One rendered section of the assembled document, as the claim words it:
`"## "`, the filename, two newlines, the content, two newlines. -/
def renderSection (item : RelevantContent) : String :=
  "## " ++ item.file ++ "\n\n" ++ item.content ++ "\n\n"

/-- Modelled from the claim's words (C8): the sections in input order, each
consecutive pair joined by the separator `"---"` plus two newlines. -/
def claimedSections : List RelevantContent → String
  | [] => ""
  | [item] => renderSection item
  | item :: next :: rest =>
      renderSection item ++ "---\n\n" ++ claimedSections (next :: rest)

/-- Function `formatOutput` as the claim describes it: the fixed placeholder on the
empty list, the joined sections otherwise. -/
def claimedFormatOutput : List RelevantContent → String
  | [] => "No relevant documentation found for this task."
  | item :: rest => claimedSections (item :: rest)

/-- Two successive calls of `filterRelevantContent` with identical arguments,
the second seeing the cache the first left behind: both results plus the
total number of oracle invocations. -/
def filterTwice (oracle : ContentOracle) (cache : FilterCache)
    (content task : String) : String × String × Nat :=
  let r1 := filterRelevantContent oracle cache content task
  let r2 := filterRelevantContent oracle r1.2.1 content task
  (r1.1, r2.1, r1.2.2 + r2.2.2)

/-- Concrete documents used by witnesses and counterexamples. -/
def docA : DocMetadata := ⟨"a.md", "/docs/a.md", none, none, none⟩

def docB : DocMetadata := ⟨"b.md", "/docs/b.md", none, none, none⟩

def docC : DocMetadata := ⟨"c.md", "/docs/c.md", none, none, none⟩

def docD : DocMetadata := ⟨"d.md", "/docs/d.md", none, none, none⟩

/-- Four files — enough to reach the verdict path of `filterRelevantFiles`. -/
def fourFiles : List DocMetadata := [docA, docB, docC, docD]

/-- A verdict list with two entries for file 1: the first includes it, the
second excludes it.  `Array.find` returns the first, so the code keeps the
file, while a contains-an-excluding-entry rule would drop it. -/
def dupVerdicts : List Verdict := [⟨1, some true, ""⟩, ⟨1, some false, ""⟩]

/-- A 500-character content string: long enough to skip the `< 500`
short-circuit and reach the oracle call. -/
def longContent : String := String.mk (List.replicate 500 'a')

/-- The per-index unit of work used in the scheduler witnesses: read and
filter are both the identity, over a two-file list. -/
def twoFileOp : Nat → RelevantContent :=
  fun i => processFile id id ([docA, docB].getD i ⟨"", "", none, none, none⟩)

/-! ## Helper lemmas -/

theorem enumFrom_map_snd {α : Type} : ∀ (n : Nat) (l : List α),
    (l.enumFrom n).map Prod.snd = l
  | _, [] => rfl
  | n, a :: as => by
    simp only [List.enumFrom, List.map_cons]
    rw [enumFrom_map_snd (n + 1) as]

theorem enum_map_snd {α : Type} (l : List α) : l.enum.map Prod.snd = l :=
  enumFrom_map_snd 0 l

theorem keepsFile_eq_firstMatchKeeps :
    ∀ (filterData : List Verdict) (index : Nat),
      keepsFile filterData index = firstMatchKeeps filterData index
  | [], _ => rfl
  | item :: rest, index => by
    by_cases h : item.fileIndex = (index : Int) + 1
    · simp [keepsFile, firstMatchKeeps, List.find?, h]
    · have hb : (item.fileIndex == (index : Int) + 1) = false := by
        simpa using h
      have ih := keepsFile_eq_firstMatchKeeps rest index
      simp only [keepsFile, List.find?, hb, firstMatchKeeps, if_neg h] at ih ⊢
      exact ih

theorem sched_running_le {β : Type} {K n : Nat} {op : Nat → β}
    {s : SchedState β} (h : Reachable K op n s) : s.running.length ≤ K := by
  induction h with
  | refl => simp [initState]
  | tail _ step ih =>
    cases step with
    | start hK => simpa using hK
    | @complete pend run₁ run₂ res i =>
      simp only [SchedState.running, List.length_append,
        List.length_cons] at ih ⊢
      omega

theorem sched_invariant {β : Type} {K n : Nat} {op : Nat → β}
    {s : SchedState β} (h : Reachable K op n s) :
    (s.pending ++ s.running ++ s.results.map Prod.fst).Perm (List.range n) ∧
      ∀ p ∈ s.results, p.2 = op p.1 := by
  induction h with
  | refl =>
    refine ⟨?_, by simp [initState]⟩
    simp only [initState, List.map_nil, List.append_nil]
    exact List.Perm.refl _
  | tail _ step ih =>
    obtain ⟨hperm, hval⟩ := ih
    cases step with
    | @start i rest run res hK =>
      refine ⟨?_, hval⟩
      have hmid :
          (rest ++ i :: (run ++ res.map Prod.fst)).Perm
            (i :: (rest ++ (run ++ res.map Prod.fst))) := List.perm_middle
      have hold : (i :: (rest ++ (run ++ res.map Prod.fst))).Perm
          (List.range n) := by simpa using hperm
      simpa using hmid.trans hold
    | @complete pend run₁ run₂ res i =>
      constructor
      · have hmid :
            ((run₁ ++ run₂) ++ i :: res.map Prod.fst).Perm
              (i :: ((run₁ ++ run₂) ++ res.map Prod.fst)) := List.perm_middle
        have hmid₂ :
            (run₁ ++ i :: run₂).Perm (i :: (run₁ ++ run₂)) := List.perm_middle
        have hold : (pend ++ ((run₁ ++ i :: run₂) ++ res.map Prod.fst)).Perm
            (List.range n) := by simpa using hperm
        have hstep : (pend ++ ((run₁ ++ run₂) ++ i :: res.map Prod.fst)).Perm
            (pend ++ ((run₁ ++ i :: run₂) ++ res.map Prod.fst)) := by
          refine List.Perm.append_left pend ?_
          refine hmid.trans ?_
          exact hmid₂.symm.append_right (res.map Prod.fst)
        simpa using hstep.trans hold
      · intro p hp
        cases hp with
        | head => rfl
        | tail _ hp' => exact hval p hp'

theorem lookup_eq_of_mem_of_nodup {β : Type} :
    ∀ {l : List (Nat × β)} {i : Nat} {v : β},
      (l.map Prod.fst).Nodup → (i, v) ∈ l → l.lookup i = some v := by
  intro l
  induction l with
  | nil => intro i v _ hm; cases hm
  | cons p tl ih =>
    intro i v hnd hm
    obtain ⟨k, w⟩ := p
    simp only [List.map_cons, List.nodup_cons] at hnd
    cases hm with
    | head => simp [List.lookup_cons]
    | tail _ hm' =>
      have hne : (i == k) = false := by
        refine beq_eq_false_iff_ne.mpr ?_
        intro hik
        subst hik
        exact hnd.1 (List.mem_map.mpr ⟨(i, v), hm', rfl⟩)
      rw [List.lookup_cons, hne]
      exact ih hnd.2 hm'

theorem sched_terminal_lookup {β : Type} {K n : Nat} {op : Nat → β}
    {s : SchedState β} (h : Reachable K op n s) (hT : Terminal s)
    {i : Nat} (hi : i < n) : s.results.lookup i = some (op i) := by
  obtain ⟨hperm, hval⟩ := sched_invariant h
  obtain ⟨hp, hr⟩ := hT
  rw [hp, hr] at hperm
  simp only [List.nil_append] at hperm
  have hnd : (s.results.map Prod.fst).Nodup :=
    hperm.symm.nodup (List.nodup_range n)
  have hmem : i ∈ s.results.map Prod.fst :=
    hperm.mem_iff.mpr (List.mem_range.mpr hi)
  obtain ⟨p, hpmem, hpfst⟩ := List.mem_map.mp hmem
  have hv : p.2 = op p.1 := hval p hpmem
  have : (i, op i) ∈ s.results := by
    have : p = (i, op i) := by
      obtain ⟨p1, p2⟩ := p
      simp only at hpfst hv
      rw [hpfst] at hv ⊢
      rw [hv]
    exact this ▸ hpmem
  exact lookup_eq_of_mem_of_nodup hnd this

theorem filterRelevantContent_error_run
    (oracle : ContentOracle) (cache : FilterCache) (content task : String)
    (hblank : jsTrim content ≠ "")
    (hmiss : cache.lookup (createCacheKey content task) = none)
    (hlen : ¬ content.length < 500)
    (herr : oracle content task = Except.error ()) :
    filterRelevantContent oracle cache content task = (content, cache, 1) := by
  have hne : ¬ (content = "" ∨ jsTrim content = "") := by
    rintro (hc | hc)
    · exact hblank (by rw [hc]; rfl)
    · exact hblank hc
  unfold filterRelevantContent
  rw [if_neg hne]
  simp only [hmiss, if_neg hlen, herr]

/-! ## Claim theorems -/

/-- C2: on an empty file list `filterRelevantFiles` returns the empty list
with no oracle call, and on a list of 1 to 3 files it returns all files in
input order, each stamped with `relevanceScore = 1.0`, with no oracle
call. -/
theorem filterRelevantFiles_small_input
    (files : List DocMetadata) (task : String) (judge : JudgeOutcome) :
    filterRelevantFiles [] task judge = ([], 0) ∧
      (0 < files.length → files.length ≤ 3 →
        filterRelevantFiles files task judge = (files.map stampScore, 0)) := by
  constructor
  · rfl
  · intro h0 h3
    unfold filterRelevantFiles
    rw [if_neg (by omega), if_pos h3]

theorem filterRelevantFiles_small_input_witness :
    0 < [docA, docB].length ∧ [docA, docB].length ≤ 3 ∧
      filterRelevantFiles [] "task" (Except.error ()) = ([], 0) ∧
      filterRelevantFiles [docA, docB] "task" (Except.error ()) =
        ([stampScore docA, stampScore docB], 0) := by
  have h := filterRelevantFiles_small_input [docA, docB] "task"
    (Except.error ())
  exact ⟨by decide, by decide, h.1, h.2 (by decide) (by decide)⟩

/-- C3: on more than 3 files, when the oracle call throws or its response
holds no parseable verdict list, `filterRelevantFiles` returns the original
input array unchanged — in particular with no score stamped. -/
theorem filterRelevantFiles_failure_identity
    (files : List DocMetadata) (task : String) (h : 3 < files.length) :
    filterRelevantFiles files task (Except.error ()) = (files, 1) := by
  unfold filterRelevantFiles
  rw [if_neg (by omega), if_neg (by omega)]

theorem filterRelevantFiles_failure_identity_witness :
    3 < fourFiles.length ∧
      filterRelevantFiles fourFiles "task" (Except.error ()) =
        (fourFiles, 1) :=
  ⟨by decide, filterRelevantFiles_failure_identity fourFiles "task" (by decide)⟩

/-- C4 counterexample: with two verdicts for file 1 — the first including
it, the second excluding it — the verdict list does contain an entry with
`fileIndex = 1` and `include = false`, yet the file at position 0 is kept
(`Array.find` consults only the first matching entry), so the code's output
differs from the list the claim prescribes. -/
theorem filterRelevantFiles_contains_rule_counterexample :
    claimExcludes dupVerdicts 0 = true ∧
      stampScore docA ∈
        (filterRelevantFiles fourFiles "task" (Except.ok dupVerdicts)).1 ∧
      (filterRelevantFiles fourFiles "task" (Except.ok dupVerdicts)).1 ≠
        claimPrescribedResult fourFiles dupVerdicts := by decide

/-- C4 amended: on more than 3 files and a parsed verdict list, a file at
0-based position `i` is excluded exactly when the *first* verdict entry with
`fileIndex = i + 1` has include exactly `false`; when no entry matches, or
the first matching entry's include field is true or absent, the file is kept
and stamped `relevanceScore = 1.0`. -/
theorem filterRelevantFiles_first_verdict_semantics
    (files : List DocMetadata) (task : String) (filterData : List Verdict)
    (h : 3 < files.length) :
    (filterRelevantFiles files task (Except.ok filterData)).1 =
      amendedPrescribedResult files filterData := by
  have hred : (filterRelevantFiles files task (Except.ok filterData)).1 =
      (files.enum.filter (fun p => keepsFile filterData p.1)).map
        (fun p => stampScore p.2) := by
    unfold filterRelevantFiles
    rw [if_neg (by omega), if_neg (by omega)]
  rw [hred]
  unfold amendedPrescribedResult
  have hfun :
      (fun p : Nat × DocMetadata => keepsFile filterData p.1) =
        (fun p : Nat × DocMetadata => firstMatchKeeps filterData p.1) :=
    funext fun p => keepsFile_eq_firstMatchKeeps filterData p.1
  rw [hfun]

theorem filterRelevantFiles_first_verdict_semantics_witness :
    3 < fourFiles.length ∧
      (filterRelevantFiles fourFiles "task" (Except.ok dupVerdicts)).1 =
        amendedPrescribedResult fourFiles dupVerdicts :=
  ⟨by decide,
    filterRelevantFiles_first_verdict_semantics fourFiles "task" dupVerdicts
      (by decide)⟩

/-- C10: on every path, the list `filterRelevantFiles` returns is a
subsequence of its input: the returned files, with the `relevanceScore`
field erased, form a sublist (same elements, same relative order, nothing
added) of the input files with that field erased. -/
theorem filterRelevantFiles_subsequence
    (files : List DocMetadata) (task : String) (judge : JudgeOutcome) :
    ((filterRelevantFiles files task judge).1.map eraseScore).Sublist
      (files.map eraseScore) := by
  unfold filterRelevantFiles
  by_cases h0 : files.length = 0
  · rw [if_pos h0]
    exact List.nil_sublist _
  · rw [if_neg h0]
    by_cases h3 : files.length ≤ 3
    · rw [if_pos h3]
      simp only [List.map_map]
      have heq : eraseScore ∘ stampScore = eraseScore := rfl
      rw [heq]
    · rw [if_neg h3]
      cases judge with
      | error e => exact List.Sublist.refl _
      | ok filterData =>
        simp only [List.map_map]
        have hfn :
            (eraseScore ∘ fun p : Nat × DocMetadata => stampScore p.2) =
              (eraseScore ∘ Prod.snd) := rfl
        rw [hfn, ← List.map_map]
        have hsub :
            ((files.enum.filter
              (fun p => keepsFile filterData p.1)).map Prod.snd).Sublist
              (files.enum.map Prod.snd) :=
          (List.filter_sublist files.enum).map Prod.snd
        rw [enum_map_snd files] at hsub
        exact hsub.map eraseScore

theorem filterRelevantContent_blank_run
    (oracle : ContentOracle) (cache : FilterCache) (content task : String)
    (hb : content = "" ∨ jsTrim content = "") :
    filterRelevantContent oracle cache content task = ("", cache, 0) := by
  unfold filterRelevantContent
  rw [if_pos hb]

theorem filterRelevantContent_hit_run
    (oracle : ContentOracle) (cache : FilterCache)
    (content task cached : String)
    (hb : ¬ (content = "" ∨ jsTrim content = ""))
    (hlk : cache.lookup (createCacheKey content task) = some cached) :
    filterRelevantContent oracle cache content task = (cached, cache, 0) := by
  unfold filterRelevantContent
  rw [if_neg hb]
  simp only [hlk]

theorem filterRelevantContent_short_run
    (oracle : ContentOracle) (cache : FilterCache) (content task : String)
    (hb : ¬ (content = "" ∨ jsTrim content = ""))
    (hlk : cache.lookup (createCacheKey content task) = none)
    (hlen : content.length < 500) :
    filterRelevantContent oracle cache content task = (content, cache, 0) := by
  unfold filterRelevantContent
  rw [if_neg hb]
  simp only [hlk, if_pos hlen]

theorem filterRelevantContent_ok_run
    (oracle : ContentOracle) (cache : FilterCache)
    (content task text : String)
    (hb : ¬ (content = "" ∨ jsTrim content = ""))
    (hlk : cache.lookup (createCacheKey content task) = none)
    (hlen : ¬ content.length < 500)
    (hok : oracle content task = Except.ok text) :
    filterRelevantContent oracle cache content task =
      (text, (createCacheKey content task, text) :: cache, 1) := by
  unfold filterRelevantContent
  rw [if_neg hb]
  simp only [hlk, if_neg hlen, hok]

theorem filterTwice_eq
    (oracle : ContentOracle) (cache : FilterCache) (content task : String) :
    filterTwice oracle cache content task =
      ((filterRelevantContent oracle cache content task).1,
       (filterRelevantContent oracle
          (filterRelevantContent oracle cache content task).2.1
          content task).1,
       (filterRelevantContent oracle cache content task).2.2 +
         (filterRelevantContent oracle
            (filterRelevantContent oracle cache content task).2.1
            content task).2.2) := rfl

/-- C5: on empty or whitespace-only content, `filterRelevantContent` returns
the empty string immediately, with no oracle invocation and no cache
write. -/
theorem filterRelevantContent_blank_input
    (oracle : ContentOracle) (cache : FilterCache) (content task : String)
    (h : jsTrim content = "") :
    filterRelevantContent oracle cache content task = ("", cache, 0) :=
  filterRelevantContent_blank_run oracle cache content task (Or.inr h)

theorem filterRelevantContent_blank_input_witness :
    jsTrim " \n " = "" ∧
      filterRelevantContent (fun _ _ => Except.ok "pruned") [("k", "v")]
        " \n " "task" = ("", [("k", "v")], 0) :=
  ⟨by decide,
    filterRelevantContent_blank_input (fun _ _ => Except.ok "pruned")
      [("k", "v")] " \n " "task" (by decide)⟩

/-- C7: when the path reaches the oracle call and that call fails,
`filterRelevantContent` returns the original content unpruned and leaves the
cache unchanged — no entry is written on the error path. -/
theorem filterRelevantContent_error_fallback
    (oracle : ContentOracle) (cache : FilterCache) (content task : String)
    (hblank : jsTrim content ≠ "")
    (hmiss : cache.lookup (createCacheKey content task) = none)
    (hlen : ¬ content.length < 500)
    (herr : oracle content task = Except.error ()) :
    filterRelevantContent oracle cache content task = (content, cache, 1) :=
  filterRelevantContent_error_run oracle cache content task hblank hmiss
    hlen herr

theorem filterRelevantContent_error_fallback_witness :
    jsTrim longContent ≠ "" ∧ ¬ longContent.length < 500 ∧
      filterRelevantContent (fun _ _ => Except.error ()) [] longContent
        "task" = (longContent, [], 1) :=
  ⟨by decide, by decide,
    filterRelevantContent_error_fallback (fun _ _ => Except.error ()) []
      longContent "task" (by decide) rfl (by decide) rfl⟩

/-- C6 counterexample: with a failing oracle and content long enough to
reach it, nothing is cached, so two successive identical calls invoke the
oracle twice — not at most once as the claim states. -/
theorem filterRelevantContent_twice_counterexample :
    (filterTwice (fun _ _ => Except.error ()) [] longContent "task").2.2
        = 2 ∧
      ¬ (filterTwice (fun _ _ => Except.error ()) [] longContent
          "task").2.2 ≤ 1 := by
  have h1 :
      filterRelevantContent (fun _ _ => Except.error ()) [] longContent
        "task" = (longContent, [], 1) :=
    filterRelevantContent_error_run (fun _ _ => Except.error ()) []
      longContent "task" (by decide) rfl (by decide) rfl
  rw [filterTwice_eq]
  rw [h1]
  simp only [h1]
  exact ⟨trivial, by decide⟩

/-- C6 amended: two successive calls of `filterRelevantContent` with
identical content and task return equal results, and invoke the oracle at
most once in total provided the oracle call on that pair succeeds; when the
oracle fails, nothing is cached and the second call invokes it again. -/
theorem filterRelevantContent_idempotent
    (oracle : ContentOracle) (cache : FilterCache) (content task : String) :
    (filterTwice oracle cache content task).2.1 =
        (filterTwice oracle cache content task).1 ∧
      ((oracle content task).isOk = true →
        (filterTwice oracle cache content task).2.2 ≤ 1) := by
  rw [filterTwice_eq]
  by_cases hb : content = "" ∨ jsTrim content = ""
  · have h1 := filterRelevantContent_blank_run oracle cache content task hb
    rw [h1]
    simp only [h1]
    exact ⟨trivial, fun _ => by decide⟩
  · cases hlk : cache.lookup (createCacheKey content task) with
    | some cached =>
      have h1 := filterRelevantContent_hit_run oracle cache content task
        cached hb hlk
      rw [h1]
      simp only [h1]
      exact ⟨trivial, fun _ => by decide⟩
    | none =>
      by_cases hlen : content.length < 500
      · have h1 := filterRelevantContent_short_run oracle cache content
          task hb hlk hlen
        rw [h1]
        simp only [h1]
        exact ⟨trivial, fun _ => by decide⟩
      · cases horc : oracle content task with
        | error e =>
          obtain ⟨⟩ := e
          have hblank : jsTrim content ≠ "" := fun hc => hb (Or.inr hc)
          have h1 := filterRelevantContent_error_run oracle cache content
            task hblank hlk hlen horc
          rw [h1]
          simp only [h1]
          refine ⟨trivial, ?_⟩
          intro hok
          simp [Except.isOk, Except.toBool] at hok
        | ok text =>
          have h1 := filterRelevantContent_ok_run oracle cache content task
            text hb hlk hlen horc
          have hlk2 :
              ((createCacheKey content task, text) :: cache).lookup
                (createCacheKey content task) = some text := by
            rw [List.lookup_cons]
            simp
          have h2 := filterRelevantContent_hit_run oracle
            ((createCacheKey content task, text) :: cache) content task
            text hb hlk2
          rw [h1]
          simp only [h2]
          exact ⟨trivial, fun _ => by decide⟩

theorem filterRelevantContent_idempotent_witness :
    ((fun _ _ => Except.ok "pruned" : ContentOracle) "abc" "task").isOk
        = true ∧
      (filterTwice (fun _ _ => Except.ok "pruned") [] "abc" "task").2.1 =
        (filterTwice (fun _ _ => Except.ok "pruned") [] "abc" "task").1 ∧
      (filterTwice (fun _ _ => Except.ok "pruned") [] "abc" "task").2.2
        ≤ 1 := by
  have h := filterRelevantContent_idempotent
    (fun _ _ => Except.ok "pruned") [] "abc" "task"
  exact ⟨rfl, h.1, h.2 rfl⟩

theorem intercalate_go_append (s acc₁ acc₂ : String) :
    ∀ as : List String,
      String.intercalate.go (acc₁ ++ acc₂) s as =
        acc₁ ++ String.intercalate.go acc₂ s as
  | [] => rfl
  | a :: as => by
    show String.intercalate.go ((acc₁ ++ acc₂) ++ s ++ a) s as =
      acc₁ ++ String.intercalate.go ((acc₂ ++ s) ++ a) s as
    have hre : ((acc₁ ++ acc₂) ++ s) ++ a = acc₁ ++ ((acc₂ ++ s) ++ a) := by
      rw [String.append_assoc acc₁ acc₂ s,
        String.append_assoc acc₁ (acc₂ ++ s) a]
    rw [hre]
    exact intercalate_go_append s acc₁ ((acc₂ ++ s) ++ a) as

theorem intercalate_cons_cons (s a b : String) (rest : List String) :
    String.intercalate s (a :: b :: rest) =
      a ++ s ++ String.intercalate s (b :: rest) := by
  show String.intercalate.go ((a ++ s) ++ b) s rest =
    (a ++ s) ++ String.intercalate.go b s rest
  exact intercalate_go_append s (a ++ s) b rest

theorem sections_eq : ∀ l : List RelevantContent,
    String.intercalate "---\n\n" (l.map renderSection) = claimedSections l
  | [] => rfl
  | [item] => rfl
  | item :: next :: rest => by
    rw [List.map_cons, List.map_cons, intercalate_cons_cons,
      ← List.map_cons, sections_eq (next :: rest)]
    rfl

/-- C8: `formatOutput` returns the fixed placeholder on an empty list, and
otherwise renders, in input order, one `"## " ++ filename ++ "\n\n" ++
content ++ "\n\n"` section per item, consecutive sections joined with
`"---\n\n"` — exactly the claim's description `claimedFormatOutput`. -/
theorem formatOutput_assembler_spec (contents : List RelevantContent) :
    formatOutput contents = claimedFormatOutput contents := by
  cases contents with
  | nil => rfl
  | cons item rest =>
    show String.intercalate "---\n\n" ((item :: rest).map renderSection) =
      claimedSections (item :: rest)
    exact sections_eq (item :: rest)

/-- C9: in the bounded-concurrency pipeline (`pLimit(4)` feeding the
per-file operations), no reachable moment of any run has more than 4
operations in flight, whatever the number of queued files. -/
theorem processRequest_concurrency_bound {β : Type} (op : Nat → β)
    (n : Nat) (s : SchedState β) (h : Reachable 4 op n s) :
    s.running.length ≤ 4 :=
  sched_running_le h

theorem processRequest_concurrency_bound_witness :
    Reachable 4 twoFileOp 2 ⟨[], [1, 0], []⟩ ∧
      (⟨[], [1, 0], []⟩ : SchedState RelevantContent).running.length
        ≤ 4 := by
  have h0 : Reachable 4 twoFileOp 2 (initState RelevantContent 2) :=
    Relation.ReflTransGen.refl
  have h1 : Reachable 4 twoFileOp 2 ⟨[1], [0], []⟩ :=
    h0.tail (SchedStep.start (by decide))
  have h2 : Reachable 4 twoFileOp 2 ⟨[], [1, 0], []⟩ :=
    h1.tail (SchedStep.start (by decide))
  exact ⟨h2, processRequest_concurrency_bound twoFileOp 2 _ h2⟩

/-- C1: for any run of the bounded-concurrency pipeline over the surviving
files that reaches a terminal state — every unit started and settled, in
whatever completion order — the collected result at index `i` is the
filename of the `i`-th surviving file paired with the filtered content of
that file's text, for every `i`. -/
theorem processRequest_preserves_input_order
    (files : List DocMetadata) (readF filterC : String → String)
    (s : SchedState RelevantContent)
    (h : Reachable 4
      (fun i => processFile readF filterC
        (files.getD i ⟨"", "", none, none, none⟩))
      files.length s)
    (hT : Terminal s) :
    ∀ i (hi : i < files.length),
      s.results.lookup i = some (processFile readF filterC files[i]) := by
  intro i hi
  have hres := sched_terminal_lookup h hT hi
  rw [hres]
  rw [List.getD_eq_getElem?_getD, List.getElem?_eq_getElem hi]
  rfl

theorem processRequest_preserves_input_order_witness :
    Reachable 4 twoFileOp 2 ⟨[], [], [(0, twoFileOp 0), (1, twoFileOp 1)]⟩ ∧
      Terminal (⟨[], [], [(0, twoFileOp 0), (1, twoFileOp 1)]⟩ :
        SchedState RelevantContent) ∧
      (⟨[], [], [(0, twoFileOp 0), (1, twoFileOp 1)]⟩ :
        SchedState RelevantContent).results.lookup 0 =
          some ⟨"a.md", "/docs/a.md"⟩ ∧
      (⟨[], [], [(0, twoFileOp 0), (1, twoFileOp 1)]⟩ :
        SchedState RelevantContent).results.lookup 1 =
          some ⟨"b.md", "/docs/b.md"⟩ := by
  have h0 : Reachable 4 twoFileOp 2 (initState RelevantContent 2) :=
    Relation.ReflTransGen.refl
  have h1 : Reachable 4 twoFileOp 2 ⟨[1], [0], []⟩ :=
    h0.tail (SchedStep.start (by decide))
  have h2 : Reachable 4 twoFileOp 2 ⟨[], [1, 0], []⟩ :=
    h1.tail (SchedStep.start (by decide))
  have h3 : Reachable 4 twoFileOp 2 ⟨[], [0], [(1, twoFileOp 1)]⟩ :=
    h2.tail (@SchedStep.complete 4 RelevantContent twoFileOp [] [] [0] [] 1)
  have h4 : Reachable 4 twoFileOp 2
      ⟨[], [], [(0, twoFileOp 0), (1, twoFileOp 1)]⟩ :=
    h3.tail (@SchedStep.complete 4 RelevantContent twoFileOp [] [] []
      [(1, twoFileOp 1)] 0)
  have hT : Terminal (⟨[], [], [(0, twoFileOp 0), (1, twoFileOp 1)]⟩ :
      SchedState RelevantContent) := ⟨rfl, rfl⟩
  have happ := processRequest_preserves_input_order [docA, docB] id id _
    h4 hT
  refine ⟨h4, hT, ?_, ?_⟩
  · exact happ 0 (by decide)
  · exact happ 1 (by decide)
